import Mathlib

/-!
Shallow embedding of the ICU tokenizer of Nominatim
(`nominatim/tokenizer/icu_tokenizer.py` and
`nominatim/tokenizer/icu_token_analysis.py`) and proofs about it.

Python strings are modelled as Lean `String`s; `str.strip`/`str.upper` are
modelled over the character list with the ASCII case mapping `Char.toUpper`
standing in for Unicode `upper()`.
-/

namespace Nominatim

/-- Model of Python `str.strip()` on the character list: drop whitespace
from both ends. -/
def stripChars (l : List Char) : List Char :=
  ((l.dropWhile Char.isWhitespace).reverse.dropWhile Char.isWhitespace).reverse

/-- Model of Python `str.strip()`. -/
def pyStrip (s : String) : String := String.mk (stripChars s.data)

/-- Model of Python `str.upper()` (ASCII case mapping). -/
def pyUpper (s : String) : String := String.mk (s.data.map Char.toUpper)

/-- `LegacyICUNameAnalyzer.normalize_postcode`: `postcode.strip().upper()`. -/
def normalize_postcode (postcode : String) : String := pyUpper (pyStrip postcode)

/-- Model of Python's `c in s` membership test for a single character. -/
def pyContains (s : String) (c : Char) : Bool := s.data.contains c

/-- Splitter on the separator characters `;` and `,`, accumulating the
current field in reverse. -/
def splitSepAux : List Char → List Char → List (List Char)
  | [], acc => [acc.reverse]
  | c :: rest, acc =>
    if c = ';' ∨ c = ',' then acc.reverse :: splitSepAux rest []
    else splitSepAux rest (c :: acc)

/-- Split a housenumber string on the separators `;` and `,`
(model of `re.split(r'[;,]', hnr)`). -/
def splitHnr (s : String) : List String := (splitSepAux s.data []).map String.mk

/-- `LegacyICUNameAnalyzer._split_housenumbers`. The Python code indexes
`hnrs[0]` and is only called with a non-empty list; the `[]` case is
unreachable there. `list(set(simple_list))` (arbitrary iteration order) is
modelled by `List.eraseDups`, which keeps one representative per element. -/
def _split_housenumbers : List String → List String
  | [] => []
  | h :: t =>
    if t.length + 1 > 1 || pyContains h ',' || pyContains h ';' then
      let simple_list := (h :: t).flatMap (fun hnr => (splitHnr hnr).map pyStrip)
      if simple_list.length > 1 then simple_list.eraseDups else simple_list
    else
      h :: t

/-- Splitter on whitespace, Python `str.split()` semantics: runs of
whitespace separate fields and empty fields are dropped. -/
def splitWhiteAux : List Char → List Char → List (List Char)
  | [], acc => if acc = [] then [] else [acc.reverse]
  | c :: rest, acc =>
    if c.isWhitespace then
      if acc = [] then splitWhiteAux rest []
      else acc.reverse :: splitWhiteAux rest []
    else splitWhiteAux rest (c :: acc)

/-- Model of Python `str.split()` (no separator argument). -/
def pySplitWhite (s : String) : List String := (splitWhiteAux s.data []).map String.mk

/-- A sanitized name handed to the analyzer: the name string plus the
optional `analyzer` attribute (`PlaceName.get_attr('analyzer')`). -/
structure NameItem where
  name : String
  analyzer : Option String
deriving DecidableEq

/-- A sanitized address item: `kind`, name string and the `suffix`
attribute (modelled as a flag: Python tests its truthiness only). -/
structure AddressItem where
  kind : String
  name : String
  suffix : Bool
deriving DecidableEq

/-- The token store (the `word` table plus its `getorcreate_*` SQL
functions), which is external to the analyzed sources.
Modelled from the spec: §4.3 Token Store Interface.
`fullWords` memoizes `getorcreate_full_word` results per dispatch key,
`partialWords` assigns canonical partial-word ids, `wordsW` holds
full-word rows searchable by `word_token` (type `'W'`), `wordsP` holds
postcode rows `(word_token, word)` (type `'P'`), `wordsC` country rows
`(word_token, country_code)` (type `'C'`), `wordsS` special-phrase rows
`(word_token, word, class, type, op)` (type `'S'`), `hnrWords` housenumber
ids, and `nextId` is the id allocator. -/
structure WordStore where
  fullWords : List (String × Nat × List Nat)
  partialWords : List (String × Nat)
  wordsW : List (String × Nat)
  wordsP : Finset (String × String)
  wordsC : Finset (String × String)
  wordsS : Multiset (String × String × String × String × Option String)
  hnrWords : List (String × Nat)
  nextId : Nat
deriving DecidableEq

/-- The store of a freshly initialized database: no rows, ids start at 0. -/
def emptyStore : WordStore := ⟨[], [], [], ∅, ∅, ∅, [], 0⟩

/-- Modelled from the spec: §4.3 `get_or_create_partial_word(word)` —
the SQL function is not part of the repository sources. Idempotent:
returns the existing id or allocates a fresh one. -/
def getorcreate_partial_word (st : WordStore) (word : String) : Nat × WordStore :=
  match List.lookup word st.partialWords with
  | some id => (id, st)
  | none => (st.nextId,
      { st with partialWords := (word, st.nextId) :: st.partialWords, nextId := st.nextId + 1 })

/-- Get-or-create partial ids for a list of words, threading the store. -/
def getorcreatePartials : List String → WordStore → List Nat × WordStore
  | [], st => ([], st)
  | w :: ws, st =>
    let (id, st1) := getorcreate_partial_word st w
    let (ids, st2) := getorcreatePartials ws st1
    (id :: ids, st2)

/-- Modelled from the spec: §4.3 `get_or_create_full_word(dispatch_key,
variant_strings)` — the SQL function is not part of the repository
sources. Returns one canonical full-token id for the dispatch key and the
partial ids of every whitespace-separated word across the variants. -/
def getorcreate_full_word (st : WordStore) (token_id : String) (variants : List String) :
    (Nat × List Nat) × WordStore :=
  match List.lookup token_id st.fullWords with
  | some pr => (pr, st)
  | none =>
    let words := (variants.flatMap pySplitWhite).eraseDups
    let (parts, st1) := getorcreatePartials words st
    let full := st1.nextId
    ((full, parts),
      { st1 with fullWords := (token_id, full, parts) :: st1.fullWords, nextId := st1.nextId + 1 })

/-- `ICUTokenAnalysis.analysis`: the analyzer set, a mapping from the
analyzer key (`None` = default) to the strategy's `get_variants_ascii`,
modelled as a function from the normalized name to the ASCII variants. -/
abbrev AnalysisMap := List (Option String × (String → List String))

/-- `ICUTokenAnalysis.get_analyzer`: Python
`self.analysis.get(name) or self.analysis[None]`; the result is `none`
exactly when the direct lookup misses and the default entry is absent
too (a `KeyError` in Python). -/
def get_analyzer (analysis : AnalysisMap) (name : Option String) :
    Option (String → List String) :=
  match List.lookup name analysis with
  | some a => some a
  | none => List.lookup none analysis

/-- The dispatch key of `_compute_name_tokens`:
`norm_name` or `f'{norm_name}@{analyzer_id}'`. -/
def dispatchKey (norm_name : String) : Option String → String
  | none => norm_name
  | some a => norm_name ++ "@" ++ a

/-- The `names` member of `_TokenCache`: dispatch key → (full id, partial ids). -/
abbrev NameCache := List (String × Nat × List Nat)

/-- `LegacyICUNameAnalyzer._compute_name_tokens`. The transliterator
`self._normalized` is the function parameter `normalized`. Python raises
`KeyError` when `self.token_analysis.analysis[analyzer_id]` misses (the
code indexes the dict directly); this is the `none` result. The final
`Nat` counts the `getorcreate_full_word` round trips made. -/
def _compute_name_tokens (normalized : String → String) (analysis : AnalysisMap) :
    List NameItem → NameCache → WordStore →
      Option (Finset Nat × Finset Nat × NameCache × WordStore × Nat)
  | [], cache, st => some (∅, ∅, cache, st, 0)
  | n :: rest, cache, st =>
    let norm_name := normalized n.name
    let token_id := dispatchKey norm_name n.analyzer
    match List.lookup token_id cache with
    | some (full, part) =>
      match _compute_name_tokens normalized analysis rest cache st with
      | none => none
      | some (F, P, c', s', k) => some (insert full F, P ∪ part.toFinset, c', s', k)
    | none =>
      match List.lookup n.analyzer analysis with
      | none => none
      | some strat =>
        if strat norm_name = [] then
          _compute_name_tokens normalized analysis rest cache st
        else
          let (pr, st1) := getorcreate_full_word st token_id (strat norm_name)
          match _compute_name_tokens normalized analysis rest ((token_id, pr) :: cache) st1 with
          | none => none
          | some (F, P, c', s', k) => some (insert pr.1 F, P ∪ pr.2.toFinset, c', s', k + 1)

/-- A special-phrase input tuple `(phrase_text, class, type, operator)`. -/
abbrev SPTuple := String × String × String × String

/-- Model of Python `info.get('op') or '-'`: a stored null (or empty)
operator reads back as the placeholder `'-'`. -/
def opOrDash : Option String → String
  | none => "-"
  | some s => if s = "" then "-" else s

/-- The existing special phrases, read from the store rows of type `'S'`
into comparable tuples `(word, class, type, op-or-dash)`
(`update_special_phrases`, reading loop). -/
def existingPhrases (st : WordStore) : Finset SPTuple :=
  (st.wordsS.map (fun r => (r.2.1, r.2.2.1, r.2.2.2.1, opOrDash r.2.2.2.2))).toFinset

/-- The normalized input phrases of `update_special_phrases`:
`set((normalized(p[0]), p[1], p[2], p[3]) for p in phrases)`. -/
def normPhrases (normalized : String → String) (phrases : List SPTuple) : Finset SPTuple :=
  (phrases.map (fun p => (normalized p.1, p.2.1, p.2.2.1, p.2.2.2))).toFinset

/-- The row inserted by `_add_special_phrases` for one tuple: word_token is
the search-folded phrase and the operator is constrained to
`{'in', 'near'}` or null. -/
def spInsertRow (searchNorm : String → String) (t : SPTuple) :
    String × String × String × String × Option String :=
  (searchNorm t.1, t.1, t.2.1, t.2.2.1,
    if t.2.2.2 = "in" ∨ t.2.2.2 = "near" then some t.2.2.2 else none)

/-- `LegacyICUNameAnalyzer._add_special_phrases`: insert the tuples of
`new − existing` whose search-folded text is non-empty; returns the new
store and the added count. -/
def _add_special_phrases (searchNorm : String → String) (st : WordStore)
    (new_phrases existing_phrases : Finset SPTuple) : WordStore × Nat :=
  let to_add := new_phrases \ existing_phrases
  let adds := to_add.filter (fun t => searchNorm t.1 ≠ "")
  ({ st with wordsS := st.wordsS + adds.val.map (spInsertRow searchNorm) }, adds.card)

/-- The `DELETE ... USING (VALUES %s)` match condition of
`_remove_special_phrases`: row `r` matches tuple `t` on word, class, type
and operator, a `'-'` tuple operator matching a stored null. -/
def spRowMatches (t : SPTuple) (r : String × String × String × String × Option String) : Bool :=
  r.2.1 = t.1 && r.2.2.1 = t.2.1 && r.2.2.2.1 = t.2.2.1 &&
    ((t.2.2.2 = "-" && r.2.2.2.2 = none) || some t.2.2.2 = r.2.2.2.2)

/-- `LegacyICUNameAnalyzer._remove_special_phrases`: delete every row
matching a tuple of `existing − new`; returns the new store and
`len(to_delete)` (the tuple count). -/
def _remove_special_phrases (st : WordStore)
    (new_phrases existing_phrases : Finset SPTuple) : WordStore × Nat :=
  let to_delete := existing_phrases \ new_phrases
  if to_delete = ∅ then (st, 0)
  else
    ({ st with wordsS := st.wordsS.filter (fun r => ¬ ∃ t ∈ to_delete, spRowMatches t r) },
      to_delete.card)

/-- `LegacyICUNameAnalyzer.update_special_phrases`. `self._normalized` and
`self._search_normalized` are the function parameters; returns the new
store together with the added and deleted counts. -/
def update_special_phrases (normalized searchNorm : String → String)
    (phrases : List SPTuple) (should_replace : Bool) (st : WordStore) :
    WordStore × Nat × Nat :=
  let norm_phrases := normPhrases normalized phrases
  let existing_phrases := existingPhrases st
  let (st1, added) := _add_special_phrases searchNorm st norm_phrases existing_phrases
  if should_replace then
    let (st2, deleted) := _remove_special_phrases st1 norm_phrases existing_phrases
    (st2, added, deleted)
  else
    (st1, added, 0)

/-- `LegacyICUNameAnalyzer._add_country_full_names`: search-fold the
sanitized names, drop empties, subtract the tokens already stored for the
country and insert only the remainder. The `Nat` is the inserted count. -/
def _add_country_full_names (searchNorm : String → String) (country_code : String)
    (names : List NameItem) (st : WordStore) : WordStore × Nat :=
  let word_tokens : Finset String :=
    ((names.map (fun n => searchNorm n.name)).filter (fun s => s ≠ "")).toFinset
  let existing := (st.wordsC.filter (fun r => r.2 = country_code)).image Prod.fst
  let remaining := word_tokens \ existing
  ({ st with wordsC := st.wordsC ∪ remaining.image (fun t => (t, country_code)) },
    remaining.card)

/-- `re.search(r'[:,;]', postcode) is not None`. -/
def containsSepChar (s : String) : Bool :=
  s.data.any (fun c => c = ':' ∨ c = ',' ∨ c = ';')

/-- `LegacyICUNameAnalyzer._add_postcode`. The whole body is guarded by
`re.search(r'[:,;]', postcode) is None`: a postcode containing one of the
separators is skipped entirely. Returns the postcode cache
(`_TokenCache.postcodes`) and the store. -/
def _add_postcode (searchNorm : String → String) (cachePostcodes : Finset String)
    (st : WordStore) (postcode : String) : Finset String × WordStore :=
  if containsSepChar postcode then (cachePostcodes, st)
  else
    let pc := normalize_postcode postcode
    if pc ∈ cachePostcodes then (cachePostcodes, st)
    else
      let term := searchNorm pc
      if term = "" then (cachePostcodes, st)
      else
        (insert pc cachePostcodes,
          if ∃ r ∈ st.wordsP, r.2 = pc then st
          else { st with wordsP := insert (term, pc) st.wordsP })

/-- `_TokenCache`: the per-session memo tables. -/
structure TokenCache where
  names : NameCache
  partials : List (String × Nat)
  fulls : List (String × List Nat)
  postcodes : Finset String
  housenumbers : List (String × Nat)
deriving DecidableEq

/-- A freshly constructed `_TokenCache`. -/
def emptyCache : TokenCache := ⟨[], [], [], ∅, []⟩

/-- First loop of `_compute_partial_tokens`: split the partial words into
cached tokens and the words that need a store lookup, in order. -/
def partialsSplit (cache : List (String × Nat)) : List String → List Nat × List String
  | [] => ([], [])
  | w :: ws =>
    let (ts, nl) := partialsSplit cache ws
    match List.lookup w cache with
    | some t => (t :: ts, nl)
    | none => (ts, w :: nl)

/-- Second loop of `_compute_partial_tokens`: get-or-create each word of
`need_lookup`, appending tokens and filling the cache. -/
def lookupPartials : List String → List (String × Nat) → WordStore →
    List Nat × List (String × Nat) × WordStore
  | [], c, st => ([], c, st)
  | w :: ws, c, st =>
    let (t, st1) := getorcreate_partial_word st w
    let (ts, c2, st2) := lookupPartials ws ((w, t) :: c) st1
    (t :: ts, c2, st2)

/-- `LegacyICUNameAnalyzer._compute_partial_tokens`. -/
def _compute_partial_tokens (searchNorm : String → String) (name : String)
    (cache : List (String × Nat)) (st : WordStore) :
    List Nat × List (String × Nat) × WordStore :=
  let norm_name := searchNorm name
  let (tokens, need_lookup) := partialsSplit cache (pySplitWhite norm_name)
  let (ts, c2, st2) := lookupPartials need_lookup cache st
  (tokens ++ ts, c2, st2)

/-- `LegacyICUNameAnalyzer._retrieve_full_tokens`: cached read-only lookup
of the full-word rows (`type = 'W'`) by `word_token`. The store is not
modified, so only the tokens and the updated `fulls` cache are returned. -/
def _retrieve_full_tokens (searchNorm : String → String) (name : String)
    (cache : List (String × List Nat)) (st : WordStore) :
    List Nat × List (String × List Nat) :=
  let norm_name := searchNorm name
  match List.lookup norm_name cache with
  | some full => (full, cache)
  | none =>
    let full := (st.wordsW.filter (fun r => r.1 = norm_name)).map Prod.snd
    (full, (norm_name, full) :: cache)

/-- Modelled from the spec: §4.3 `get_or_create_hnr_id` — the SQL function
is not part of the repository sources. -/
def getorcreate_hnr_id (st : WordStore) (term : String) : Nat × WordStore :=
  match List.lookup term st.hnrWords with
  | some id => (id, st)
  | none => (st.nextId,
      { st with hnrWords := (term, st.nextId) :: st.hnrWords, nextId := st.nextId + 1 })

/-- First loop of `_TokenCache.get_hnr_tokens`: split into cached tokens
and the terms to ask the database for. -/
def hnrSplit (cache : List (String × Nat)) : List String → List Nat × List String
  | [] => ([], [])
  | w :: ws =>
    let (ts, nl) := hnrSplit cache ws
    match List.lookup w cache with
    | some t => (t :: ts, nl)
    | none => (ts, w :: nl)

/-- Second loop of `_TokenCache.get_hnr_tokens`. -/
def hnrLookup : List String → List (String × Nat) → WordStore →
    List Nat × List (String × Nat) × WordStore
  | [], c, st => ([], c, st)
  | w :: ws, c, st =>
    let (t, st1) := getorcreate_hnr_id st w
    let (ts, c2, st2) := hnrLookup ws ((w, t) :: c) st1
    (t :: ts, c2, st2)

/-- `_TokenCache.get_hnr_tokens`. -/
def get_hnr_tokens (st : WordStore) (cache : List (String × Nat)) (terms : List String) :
    List Nat × List (String × Nat) × WordStore :=
  let (tokens, askdb) := hnrSplit cache terms
  let (ts, c2, st2) := hnrLookup askdb cache st
  (tokens ++ ts, c2, st2)

/-- `_TokenInfo.data`: the per-place output record. Python builds a dict;
each key is written by at most one `add_*` call here, except `place`,
where a later `place` item overwrites (dict assignment), which the model
reproduces by threading the record. -/
structure TokenData where
  names : Option String
  hnr_tokens : Option String
  hnr : Option String
  street : Option String
  place : Option String
  addr : Option (List (String × String))
deriving DecidableEq

/-- A fresh `_TokenInfo`: the empty dict. -/
def emptyTokenData : TokenData := ⟨none, none, none, none, none, none⟩

/-- `_TokenInfo._mk_array`: `'{%s}' % ','.join(str(s) for s in tokens)`. -/
def _mk_array (tokens : List Nat) : String :=
  "\x7b" ++ String.intercalate "," (tokens.map toString) ++ "\x7d"

/-- `_TokenInfo.add_names`: `itertools.chain(fulls, partials)` iterates the
two Python sets in unspecified order; the model fixes the ascending order
on each. -/
def add_names (d : TokenData) (fulls partials : Finset Nat) : TokenData :=
  { d with names := some (_mk_array
      (fulls.sort (· ≤ ·) ++ partials.sort (· ≤ ·))) }

/-- `_TokenInfo.add_housenumbers` (with the token list precomputed):
records the id array and the `;`-joined normalized housenumbers. -/
def add_housenumbers (d : TokenData) (tokens : List Nat) (hnrs : List String) : TokenData :=
  { d with hnr_tokens := some (_mk_array tokens), hnr := some (String.intercalate ";" hnrs) }

/-- `_TokenInfo.add_street`. -/
def add_street (d : TokenData) (tokens : List Nat) : TokenData :=
  { d with street := some (_mk_array tokens) }

/-- `_TokenInfo.add_place`. -/
def add_place (d : TokenData) (tokens : List Nat) : TokenData :=
  if tokens ≠ [] then { d with place := some (_mk_array tokens) } else d

/-- `_TokenInfo.add_address_terms`. -/
def add_address_terms (d : TokenData) (terms : List (String × List Nat)) : TokenData :=
  let tokens := (terms.filter (fun kv => kv.2 ≠ [])).map (fun kv => (kv.1, _mk_array kv.2))
  if tokens ≠ [] then { d with addr := some tokens } else d

/-- `item.kind.startswith('_')`. -/
def kindStartsUnderscore (s : String) : Bool :=
  match s.data with
  | [] => false
  | c :: _ => c = '_'

/-- The item loop of `_process_place_address`, returning the collected
raw housenumbers, address terms and street tokens together with the
token-info record, cache and store as threaded through the branches. -/
def addrLoop (searchNorm : String → String) :
    List AddressItem → TokenData → TokenCache → WordStore →
      List String × List (String × List Nat) × List Nat × TokenData × TokenCache × WordStore
  | [], d, c, st => ([], [], [], d, c, st)
  | item :: rest, d, c, st =>
    if item.kind = "postcode" then
      let (pcs, st1) := _add_postcode searchNorm c.postcodes st item.name
      addrLoop searchNorm rest d { c with postcodes := pcs } st1
    else if item.kind = "housenumber" ∨ item.kind = "streetnumber" ∨
        item.kind = "conscriptionnumber" then
      let (hnrs, at_, sts, d', c', st') := addrLoop searchNorm rest d c st
      (item.name :: hnrs, at_, sts, d', c', st')
    else if item.kind = "street" then
      let (toks, fc) := _retrieve_full_tokens searchNorm item.name c.fulls st
      let (hnrs, at_, sts, d', c', st') := addrLoop searchNorm rest d { c with fulls := fc } st
      (hnrs, at_, toks ++ sts, d', c', st')
    else if item.kind = "place" then
      if item.suffix then addrLoop searchNorm rest d c st
      else
        let (toks, pc, st1) := _compute_partial_tokens searchNorm item.name c.partials st
        addrLoop searchNorm rest (add_place d toks) { c with partials := pc } st1
    else if ¬ kindStartsUnderscore item.kind ∧ ¬ item.suffix ∧
        item.kind ≠ "country" ∧ item.kind ≠ "full" then
      let (toks, pc, st1) := _compute_partial_tokens searchNorm item.name c.partials st
      let (hnrs, at_, sts, d', c', st') := addrLoop searchNorm rest d { c with partials := pc } st1
      (hnrs, (item.kind, toks) :: at_, sts, d', c', st')
    else
      addrLoop searchNorm rest d c st

/-- `LegacyICUNameAnalyzer._process_place_address`
(`_make_standard_hnr` = `_search_normalized`). -/
def _process_place_address (searchNorm : String → String) (d : TokenData)
    (c : TokenCache) (st : WordStore) (address : List AddressItem) :
    TokenData × TokenCache × WordStore :=
  let (hnrs, addr_terms, streets, d1, c1, st1) := addrLoop searchNorm address d c st
  let (d2, c2, st2) :=
    if hnrs ≠ [] then
      let split := _split_housenumbers hnrs
      let std := split.map searchNorm
      let (toks, hc, st') := get_hnr_tokens st1 c1.housenumbers std
      (add_housenumbers d1 toks std, { c1 with housenumbers := hc }, st')
    else (d1, c1, st1)
  let d3 := if addr_terms ≠ [] then add_address_terms d2 addr_terms else d2
  let d4 := if streets ≠ [] then add_street d3 streets else d3
  (d4, c2, st2)

/-- `LegacyICUNameAnalyzer.process_place`. The sanitizer is external; its
outputs (`names`, `address`) and the place attributes `is_country` and
`country_code` are taken as inputs. `none` models the `KeyError` escape of
`_compute_name_tokens`. -/
def process_place (normalized searchNorm : String → String) (analysis : AnalysisMap)
    (names : List NameItem) (address : List AddressItem)
    (is_country : Bool) (country_code : String)
    (cache : TokenCache) (st : WordStore) :
    Option (TokenData × TokenCache × WordStore) :=
  let step1 : Option (TokenData × TokenCache × WordStore) :=
    if names = [] then some (emptyTokenData, cache, st)
    else
      match _compute_name_tokens normalized analysis names cache.names st with
      | none => none
      | some (fulls, partials, nc, st1, _) =>
        let d1 := add_names emptyTokenData fulls partials
        let st2 := if is_country then
            (_add_country_full_names searchNorm country_code names st1).1
          else st1
        some (d1, { cache with names := nc }, st2)
  match step1 with
  | none => none
  | some (d, c, st') =>
    if address = [] then some (d, c, st')
    else some (_process_place_address searchNorm d c st' address)

/- ===== Lemmas about strip/upper ===== -/

theorem char_toNat_ofNat_valid {n : Nat} (h : n.isValidChar) :
    (Char.ofNat n).toNat = n := by
  simp only [Char.ofNat, h, dite_true, Char.ofNatAux, Char.toNat, UInt32.toNat]
  simp

theorem char_toUpper_toNat (c : Char) :
    (Char.toUpper c).toNat = if 97 ≤ c.toNat ∧ c.toNat ≤ 122 then c.toNat - 32 else c.toNat := by
  unfold Char.toUpper
  show (if 97 ≤ c.toNat ∧ c.toNat ≤ 122 then Char.ofNat (c.toNat - 32) else c).toNat = _
  by_cases hc : 97 ≤ c.toNat ∧ c.toNat ≤ 122
  · rw [if_pos hc, if_pos hc, char_toNat_ofNat_valid (Or.inl (by omega))]
  · rw [if_neg hc, if_neg hc]

theorem char_eq_of_toNat_eq {a b : Char} (h : a.toNat = b.toNat) : a = b :=
  Char.ext (UInt32.ext h)

theorem char_toUpper_toUpper (c : Char) :
    Char.toUpper (Char.toUpper c) = Char.toUpper c := by
  apply char_eq_of_toNat_eq
  rw [char_toUpper_toNat, char_toUpper_toNat]
  split_ifs <;> omega

theorem char_eq_iff_toNat {c d : Char} : c = d ↔ c.toNat = d.toNat :=
  ⟨fun h => h ▸ rfl, char_eq_of_toNat_eq⟩

theorem char_isWhitespace_iff (c : Char) :
    c.isWhitespace = true ↔ c.toNat = 32 ∨ c.toNat = 9 ∨ c.toNat = 13 ∨ c.toNat = 10 := by
  unfold Char.isWhitespace
  simp only [Bool.or_eq_true, decide_eq_true_eq, or_assoc]
  rw [@char_eq_iff_toNat c ' ', @char_eq_iff_toNat c '\t',
    @char_eq_iff_toNat c '\x0d', @char_eq_iff_toNat c '\n']
  have h32 : (' ' : Char).toNat = 32 := by decide
  have h9 : ('\t' : Char).toNat = 9 := by decide
  have h13 : ('\x0d' : Char).toNat = 13 := by decide
  have h10 : ('\n' : Char).toNat = 10 := by decide
  rw [h32, h9, h13, h10]

theorem char_isWhitespace_toUpper (c : Char) :
    (Char.toUpper c).isWhitespace = c.isWhitespace := by
  rw [Bool.eq_iff_iff, char_isWhitespace_iff, char_isWhitespace_iff, char_toUpper_toNat]
  split_ifs <;> omega

theorem dropWhile_eq_self_of_front {p : Char → Bool} {x x' : List Char}
    (hx : x.dropWhile p = x) (hpre : x' <+: x) : x'.dropWhile p = x' := by
  cases x' with
  | nil => rfl
  | cons a t =>
    rcases hpre with ⟨r, rfl⟩
    rw [List.cons_append, List.dropWhile_cons] at hx
    rw [List.dropWhile_cons]
    split at hx
    · exfalso
      have h2 := (List.dropWhile_suffix (l := t ++ r) p).sublist.length_le
      rw [hx] at h2
      simp only [List.length_cons] at h2
      omega
    · next h =>
      rw [if_neg h]

/-- `stripChars` written with Mathlib's `rdropWhile`. -/
theorem stripChars_eq_rdropWhile (l : List Char) :
    stripChars l = (l.dropWhile Char.isWhitespace).rdropWhile Char.isWhitespace := rfl

theorem stripChars_idem (l : List Char) : stripChars (stripChars l) = stripChars l := by
  rw [stripChars_eq_rdropWhile, stripChars_eq_rdropWhile]
  have hA : (l.dropWhile Char.isWhitespace).dropWhile Char.isWhitespace
      = l.dropWhile Char.isWhitespace := List.dropWhile_idempotent _ _
  have hpre : (l.dropWhile Char.isWhitespace).rdropWhile Char.isWhitespace
      <+: l.dropWhile Char.isWhitespace := List.rdropWhile_prefix _ _
  rw [dropWhile_eq_self_of_front hA hpre, List.rdropWhile_idempotent]

theorem dropWhile_congr_fun {α : Type} {p q : α → Bool} (h : ∀ x, p x = q x) :
    ∀ l : List α, l.dropWhile p = l.dropWhile q := by
  intro l
  induction l with
  | nil => rfl
  | cons a t ih =>
    rw [List.dropWhile_cons, List.dropWhile_cons, h a, ih]

theorem dropWhile_map_toUpper (l : List Char) :
    (l.map Char.toUpper).dropWhile Char.isWhitespace
      = (l.dropWhile Char.isWhitespace).map Char.toUpper := by
  rw [List.dropWhile_map]
  congr 1
  exact dropWhile_congr_fun (fun c => char_isWhitespace_toUpper c) l

theorem rdropWhile_map_toUpper (l : List Char) :
    (l.map Char.toUpper).rdropWhile Char.isWhitespace
      = (l.rdropWhile Char.isWhitespace).map Char.toUpper := by
  unfold List.rdropWhile
  rw [← List.map_reverse, dropWhile_map_toUpper, List.map_reverse]

theorem stripChars_map_toUpper (l : List Char) :
    stripChars (l.map Char.toUpper) = (stripChars l).map Char.toUpper := by
  rw [stripChars_eq_rdropWhile, stripChars_eq_rdropWhile,
    dropWhile_map_toUpper, rdropWhile_map_toUpper]

theorem stripMapUpper_idem (l : List Char) :
    (stripChars ((stripChars l).map Char.toUpper)).map Char.toUpper
      = (stripChars l).map Char.toUpper := by
  rw [stripChars_map_toUpper, stripChars_idem, List.map_map]
  exact List.map_congr_left (fun a _ => char_toUpper_toUpper a)

/-- C9: for every string `x`, `normalize_postcode x` equals `x.strip().upper()`,
and `normalize_postcode` is idempotent:
`normalize_postcode (normalize_postcode x) = normalize_postcode x`. -/
theorem normalize_postcode_strip_upper_and_idem (x : String) :
    normalize_postcode x = pyUpper (pyStrip x) ∧
    normalize_postcode (normalize_postcode x) = normalize_postcode x := by
  refine ⟨rfl, ?_⟩
  unfold normalize_postcode pyUpper pyStrip
  exact congrArg String.mk (stripMapUpper_idem x.data)

/-- C5: housenumber splitting maps `["12,14", "16"]` to the deduplicated
value set `{"12", "14", "16"}` and maps `["12"]` to itself; a single raw
value without either separator is always returned unchanged. -/
theorem split_housenumbers_spec :
    ((_split_housenumbers ["12,14", "16"]).toFinset = {"12", "14", "16"} ∧
      (_split_housenumbers ["12,14", "16"]).Nodup) ∧
    _split_housenumbers ["12"] = ["12"] ∧
    ∀ h : String, pyContains h ',' = false → pyContains h ';' = false →
      _split_housenumbers [h] = [h] := by
  refine ⟨⟨by decide, by decide⟩, by decide, ?_⟩
  intro h hc hs
  unfold _split_housenumbers
  simp [hc, hs]

/-- Witness for the hypothesis-bearing part of the C5 theorem, at the
concrete input `["77"]`. -/
theorem split_housenumbers_spec_witness :
    _split_housenumbers ["77"] = ["77"] :=
  split_housenumbers_spec.2.2 "77" (by decide) (by decide)

/- ===== C3: cache coherence of _compute_name_tokens ===== -/

theorem compute_lookup_mono (normalized : String → String) (analysis : AnalysisMap)
    (names : List NameItem) :
    ∀ c s F P c' s' k,
      _compute_name_tokens normalized analysis names c s = some (F, P, c', s', k) →
      ∀ t v, List.lookup t c = some v → List.lookup t c' = some v := by
  induction names with
  | nil =>
    intro c s F P c' s' k h t v hv
    simp only [_compute_name_tokens, Option.some.injEq, Prod.mk.injEq] at h
    obtain ⟨-, -, rfl, -, -⟩ := h
    exact hv
  | cons n rest ih =>
    intro c s F P c' s' k h t v hv
    simp only [_compute_name_tokens] at h
    split at h
    · -- cache hit
      split at h
      · exact absurd h (by simp)
      · next F' P' c'' s'' k' hrest =>
        simp only [Option.some.injEq, Prod.mk.injEq] at h
        obtain ⟨-, -, rfl, -, -⟩ := h
        exact ih c s F' P' c'' s'' k' hrest t v hv
    · -- cache miss
      next hmiss =>
      split at h
      · exact absurd h (by simp)
      · next strat hstrat =>
        split at h
        · exact ih c s F P c' s' k h t v hv
        · split at h
          · exact absurd h (by simp)
          · next F' P' c'' s'' k' hrest =>
            simp only [Option.some.injEq, Prod.mk.injEq] at h
            obtain ⟨-, -, rfl, -, -⟩ := h
            refine ih _ _ F' P' c'' s'' k' hrest t v ?_
            rw [List.lookup_cons]
            split
            · next hbeq =>
              exfalso
              rw [beq_iff_eq] at hbeq
              rw [hbeq] at hv
              rw [hv] at hmiss
              exact Option.noConfusion hmiss
            · exact hv

theorem compute_lookup_new (normalized : String → String) (analysis : AnalysisMap)
    (names : List NameItem) :
    ∀ c s F P c' s' k,
      _compute_name_tokens normalized analysis names c s = some (F, P, c', s', k) →
      ∀ t v, List.lookup t c' = some v →
        List.lookup t c = some v ∨ (v.1 ∈ F ∧ v.2.toFinset ⊆ P) := by
  induction names with
  | nil =>
    intro c s F P c' s' k h t v hv
    simp only [_compute_name_tokens, Option.some.injEq, Prod.mk.injEq] at h
    obtain ⟨-, -, rfl, -, -⟩ := h
    exact Or.inl hv
  | cons n rest ih =>
    intro c s F P c' s' k h t v hv
    simp only [_compute_name_tokens] at h
    split at h
    · split at h
      · exact absurd h (by simp)
      · next F' P' c'' s'' k' hrest =>
        simp only [Option.some.injEq, Prod.mk.injEq] at h
        obtain ⟨rfl, rfl, rfl, -, -⟩ := h
        rcases ih c s F' P' c'' s'' k' hrest t v hv with hc | ⟨h1, h2⟩
        · exact Or.inl hc
        · exact Or.inr ⟨Finset.mem_insert_of_mem h1,
            h2.trans Finset.subset_union_left⟩
    · next hmiss =>
      split at h
      · exact absurd h (by simp)
      · next strat hstrat =>
        split at h
        · exact ih c s F P c' s' k h t v hv
        · split at h
          · exact absurd h (by simp)
          · next F' P' c'' s'' k' hrest =>
            simp only [Option.some.injEq, Prod.mk.injEq] at h
            obtain ⟨rfl, rfl, rfl, -, -⟩ := h
            rcases ih _ _ F' P' c'' s'' k' hrest t v hv with hc | ⟨h1, h2⟩
            · rw [List.lookup_cons] at hc
              split at hc
              · simp only [Option.some.injEq] at hc
                subst hc
                exact Or.inr ⟨Finset.mem_insert_self _ _, Finset.subset_union_right⟩
              · exact Or.inl hc
            · exact Or.inr ⟨Finset.mem_insert_of_mem h1,
                h2.trans Finset.subset_union_left⟩

/-- C3: processing the same `NameItem` list a second time within the same
analyzer session returns exactly the same full-token and partial-token id
sets, leaves cache and store unchanged, and issues zero
`getorcreate_full_word` calls to the token store. -/
theorem compute_name_tokens_second_pass (normalized : String → String)
    (analysis : AnalysisMap) (names : List NameItem) :
    ∀ c s F P c' s' k,
      _compute_name_tokens normalized analysis names c s = some (F, P, c', s', k) →
      _compute_name_tokens normalized analysis names c' s' = some (F, P, c', s', 0) := by
  induction names with
  | nil =>
    intro c s F P c' s' k h
    simp only [_compute_name_tokens, Option.some.injEq, Prod.mk.injEq] at h
    obtain ⟨rfl, rfl, rfl, rfl, -⟩ := h
    rfl
  | cons n rest ih =>
    intro c s F P c' s' k h
    simp only [_compute_name_tokens] at h
    split at h
    · next full part hhit =>
      split at h
      · exact absurd h (by simp)
      · next F' P' c'' s'' k' hrest =>
        simp only [Option.some.injEq, Prod.mk.injEq] at h
        obtain ⟨rfl, rfl, rfl, rfl, -⟩ := h
        have hm := compute_lookup_mono normalized analysis rest c s F' P' c'' s'' k'
          hrest _ _ hhit
        have hsecond := ih c s F' P' c'' s'' k' hrest
        simp only [_compute_name_tokens, hm, hsecond]
    · next hmiss =>
      split at h
      · exact absurd h (by simp)
      · next strat hstrat =>
        split at h
        · next hvar =>
          cases hlk : List.lookup (dispatchKey (normalized n.name) n.analyzer) c' with
          | none =>
            have hsecond := ih c s F P c' s' k h
            simp only [_compute_name_tokens, hlk, hstrat, hvar, eq_self_iff_true,
              ite_true, hsecond]
          | some v =>
            rcases compute_lookup_new normalized analysis rest c s F P c' s' k h _ _ hlk with
              hc | ⟨h1, h2⟩
            · rw [hmiss] at hc
              exact Option.noConfusion hc
            · have hsecond := ih c s F P c' s' k h
              simp only [_compute_name_tokens, hlk, hsecond,
                Finset.insert_eq_self.mpr h1, Finset.union_eq_left.mpr h2]
        · next hvar =>
          split at h
          · exact absurd h (by simp)
          · next F' P' c'' s'' k' hrest =>
            simp only [Option.some.injEq, Prod.mk.injEq] at h
            obtain ⟨rfl, rfl, rfl, rfl, -⟩ := h
            have hbase : List.lookup (dispatchKey (normalized n.name) n.analyzer)
                ((dispatchKey (normalized n.name) n.analyzer,
                  (getorcreate_full_word s (dispatchKey (normalized n.name) n.analyzer)
                    (strat (normalized n.name))).1) :: c)
                = some (getorcreate_full_word s (dispatchKey (normalized n.name) n.analyzer)
                    (strat (normalized n.name))).1 := by
              rw [List.lookup_cons]
              simp
            have hm := compute_lookup_mono normalized analysis rest _ _ F' P' c'' s'' k'
              hrest _ _ hbase
            have hsecond := ih _ _ F' P' c'' s'' k' hrest
            simp only [_compute_name_tokens, hm, hsecond]

/-- Witness for C3: a first pass over the single name `"a"` from an empty
cache and store creates full token 1 and partial token 0 with one store
call; the second pass returns the same sets with zero store calls. -/
theorem compute_name_tokens_second_pass_witness :
    _compute_name_tokens (fun s => s) [(none, fun s => [s])] [⟨"a", none⟩]
      [("a", 1, [0])] ⟨[("a", 1, [0])], [("a", 0)], [], ∅, ∅, ∅, [], 2⟩
      = some ({1}, {0}, [("a", 1, [0])], ⟨[("a", 1, [0])], [("a", 0)], [], ∅, ∅, ∅, [], 2⟩, 0) :=
  compute_name_tokens_second_pass (fun s => s) [(none, fun s => [s])] [⟨"a", none⟩]
    [] emptyStore {1} {0} [("a", 1, [0])]
    ⟨[("a", 1, [0])], [("a", 0)], [], ∅, ∅, ∅, [], 2⟩ 1 rfl

/- ===== C1: postcodes with separator characters ===== -/

/-- C1 counterexample: for the ambiguous postcode `"12:34"` (it contains
`:`), `_add_postcode` changes neither the store nor the cache — no
search-folded token of the raw string is inserted, contrary to the claim
that the ambiguous postcode is tokenized as-is. -/
theorem add_postcode_separator_counterexample :
    _add_postcode (fun s => s) ∅ emptyStore "12:34" = (∅, emptyStore) := rfl

/-- C1 amended: a postcode containing one of `:`/`,`/`;` is skipped
entirely by `_add_postcode`: no normalization, no token computation, no
store insert, no cache update. -/
theorem add_postcode_separator_skipped (searchNorm : String → String)
    (cachePostcodes : Finset String) (st : WordStore) (postcode : String)
    (h : containsSepChar postcode = true) :
    _add_postcode searchNorm cachePostcodes st postcode = (cachePostcodes, st) := by
  unfold _add_postcode
  rw [if_pos h]

/-- Witness for the amended C1 theorem at postcode `"12;34"`. -/
theorem add_postcode_separator_skipped_witness :
    containsSepChar "12;34" = true ∧
      _add_postcode (fun s => String.append s "x") {"99"} emptyStore "12;34"
        = ({"99"}, emptyStore) :=
  ⟨by decide, add_postcode_separator_skipped _ _ _ _ (by decide)⟩

/- ===== C2: analyzer dispatch for unmapped keys ===== -/

/-- C2 counterexample: name tokenization fails (Python `KeyError`, here
`none`) on a name carrying the unmapped analyzer key `"de"`, although the
default (`none`) analyzer is present in the analyzer set — the code
indexes the dict directly instead of using `get_analyzer`. -/
theorem compute_name_tokens_unmapped_key_counterexample :
    _compute_name_tokens (fun s => s) [(none, fun s => [s])]
      [⟨"x", some "de"⟩] [] emptyStore = none := rfl

/-- C2 amended: `get_analyzer` does return the default (`None`) strategy
for an absent or unmapped key, but `_compute_name_tokens` does not use it:
it dispatches by direct dict indexing, so a cache miss on a name whose
analyzer key is not in the analyzer set makes name tokenization fail
rather than fall back to the default. -/
theorem get_analyzer_default_vs_compute_fail :
    (∀ (analysis : AnalysisMap) (key : Option String) (d : String → List String),
      List.lookup none analysis = some d → List.lookup key analysis = none →
      get_analyzer analysis key = some d) ∧
    (∀ (normalized : String → String) (analysis : AnalysisMap) (n : NameItem)
      (rest : List NameItem) (cache : NameCache) (st : WordStore),
      List.lookup (dispatchKey (normalized n.name) n.analyzer) cache = none →
      List.lookup n.analyzer analysis = none →
      _compute_name_tokens normalized analysis (n :: rest) cache st = none) := by
  constructor
  · intro analysis key d hdef hkey
    unfold get_analyzer
    rw [hkey, hdef]
  · intro normalized analysis n rest cache st hmiss hkey
    simp only [_compute_name_tokens, hmiss, hkey]

/-- Witness for the amended C2 theorem: `get_analyzer` falls back to the
default strategy for the unmapped key `"de"`, while `_compute_name_tokens`
fails on a name with that key. -/
theorem get_analyzer_default_vs_compute_fail_witness :
    get_analyzer [(none, fun s => [s])] (some "de") = some (fun s => [s]) ∧
      _compute_name_tokens (fun s => s) [(none, fun s => [s])]
        [⟨"y", some "de"⟩] [("z", 5, [6])] emptyStore = none :=
  ⟨get_analyzer_default_vs_compute_fail.1 [(none, fun s => [s])] (some "de")
      (fun s => [s]) rfl rfl,
    get_analyzer_default_vs_compute_fail.2 (fun s => s) [(none, fun s => [s])]
      ⟨"y", some "de"⟩ [] [("z", 5, [6])] emptyStore rfl rfl⟩

/- ===== C4: special-phrase operator normalization ===== -/

/-- C4 counterexample: input `("a", "A", "B", "foo")` against a store
holding the same phrase with a null operator. Were the input operator
mapped to the placeholder before the set differences, nothing would be
added or deleted; the code keeps the raw operator `"foo"`, so the tuple is
re-added (added = 1) and the old tuple deleted (deleted = 1), leaving the
store where it started. -/
theorem update_special_phrases_placeholder_counterexample :
    update_special_phrases (fun s => s) (fun s => s) [("a", "A", "B", "foo")] true
      { emptyStore with wordsS := {("t", "a", "A", "B", none)} }
      = (emptyStore, 1, 1) := by decide

/-- C4 amended: the normalized input tuples keep the raw input operator
verbatim — `(w, c, t, op)` is a normalized tuple iff some input phrase has
exactly that operator; the `'-'` placeholder applies only when reading the
stored rows, and the `{in, near}`-or-null constraint only at insertion. -/
theorem normPhrases_keeps_operator (normalized : String → String)
    (phrases : List SPTuple) (w c t op : String) :
    (w, c, t, op) ∈ normPhrases normalized phrases ↔
      ∃ p ∈ phrases, normalized p.1 = w ∧ p.2.1 = c ∧ p.2.2.1 = t ∧ p.2.2.2 = op := by
  unfold normPhrases
  rw [List.mem_toFinset, List.mem_map]
  constructor
  · rintro ⟨p, hp, heq⟩
    simp only [Prod.mk.injEq] at heq
    obtain ⟨h1, h2, h3, h4⟩ := heq
    exact ⟨p, hp, h1, h2, h3, h4⟩
  · rintro ⟨p, hp, h1, h2, h3, h4⟩
    exact ⟨p, hp, by rw [h1, h2, h3, h4]⟩

/- ===== C6: country-name registration ===== -/

/-- C6: country-name registration never deletes an existing country token
and is monotonic: a second run with the same inputs inserts zero tokens
and leaves the store exactly as after the first run. -/
theorem add_country_full_names_monotonic (searchNorm : String → String)
    (country_code : String) (names : List NameItem) (st : WordStore) :
    st.wordsC ⊆ (_add_country_full_names searchNorm country_code names st).1.wordsC ∧
    (_add_country_full_names searchNorm country_code names
      (_add_country_full_names searchNorm country_code names st).1).2 = 0 ∧
    (_add_country_full_names searchNorm country_code names
      (_add_country_full_names searchNorm country_code names st).1).1
      = (_add_country_full_names searchNorm country_code names st).1 := by
  unfold _add_country_full_names
  set W : Finset String :=
    ((names.map (fun n => searchNorm n.name)).filter (fun s => s ≠ "")).toFinset with hW
  set E : Finset String :=
    (st.wordsC.filter (fun r => r.2 = country_code)).image Prod.fst with hE
  have hE2 : (((st.wordsC ∪ (W \ E).image (fun t => (t, country_code))).filter
      (fun r => r.2 = country_code)).image Prod.fst) = E ∪ (W \ E) := by
    ext x
    simp only [Finset.mem_image, Finset.mem_filter, Finset.mem_union, hE]
    constructor
    · rintro ⟨r, ⟨hr | hr, hp⟩, rfl⟩
      · exact Or.inl ⟨r, ⟨hr, hp⟩, rfl⟩
      · rcases hr with ⟨t, ht, rfl⟩
        exact Or.inr ht
    · rintro (⟨r, ⟨hr, hp⟩, rfl⟩ | hx)
      · exact ⟨r, ⟨Or.inl hr, hp⟩, rfl⟩
      · exact ⟨(x, country_code), ⟨Or.inr ⟨x, hx, rfl⟩, rfl⟩, rfl⟩
  have hempty : W \ (E ∪ (W \ E)) = ∅ := by
    rw [Finset.sdiff_eq_empty_iff_subset, Finset.union_sdiff_self_eq_union]
    exact Finset.subset_union_right
  refine ⟨Finset.subset_union_left, ?_, ?_⟩
  · simp only [hE2, hempty, Finset.card_empty]
  · simp only [hE2, hempty, Finset.image_empty, Finset.union_empty]

/- ===== C7: special-phrase sync without the replace flag ===== -/

/-- C7: with the replace flag false, `update_special_phrases` deletes
nothing: the deleted count is 0 and every existing special-phrase row is
still present (the row multiset only grows); all other store tables are
untouched. -/
theorem update_special_phrases_no_replace_additive
    (normalized searchNorm : String → String) (phrases : List SPTuple) (st : WordStore) :
    (update_special_phrases normalized searchNorm phrases false st).2.2 = 0 ∧
    st.wordsS ≤ (update_special_phrases normalized searchNorm phrases false st).1.wordsS ∧
    (update_special_phrases normalized searchNorm phrases false st).1.wordsP = st.wordsP ∧
    (update_special_phrases normalized searchNorm phrases false st).1.wordsC = st.wordsC ∧
    (update_special_phrases normalized searchNorm phrases false st).1.wordsW = st.wordsW := by
  unfold update_special_phrases _add_special_phrases
  exact ⟨rfl, Multiset.le_add_right _ _, rfl, rfl, rfl⟩

/- ===== C8: street items are read-only ===== -/

/-- C8: processing a `street` address item never writes to the token
store (the returned store is the input store, for any lookup outcome),
and when the full-token lookup for the search-folded name finds nothing
the street contributes no tokens: the token-info record is returned
exactly as it came in, with no error. -/
theorem process_street_readonly (searchNorm : String → String) (d : TokenData)
    (c : TokenCache) (st : WordStore) (name : String) (sfx : Bool) :
    (_process_place_address searchNorm d c st [⟨"street", name, sfx⟩]).2.2 = st ∧
    ((_retrieve_full_tokens searchNorm name c.fulls st).1 = [] →
      (_process_place_address searchNorm d c st [⟨"street", name, sfx⟩]).1 = d) := by
  rcases hr : _retrieve_full_tokens searchNorm name c.fulls st with ⟨toks, fc⟩
  constructor
  · simp [_process_place_address, addrLoop, hr]
  · intro h
    simp only at h
    subst h
    simp [_process_place_address, addrLoop, hr]

/-- Witness for C8 at a concrete street item whose lookup finds nothing:
the store and the token-info record come back unchanged. -/
theorem process_street_readonly_witness :
    (_process_place_address (fun s => s) emptyTokenData emptyCache emptyStore
      [⟨"street", "mystreet", false⟩]).2.2 = emptyStore ∧
    (_process_place_address (fun s => s) emptyTokenData emptyCache emptyStore
      [⟨"street", "mystreet", false⟩]).1 = emptyTokenData :=
  ⟨(process_street_readonly (fun s => s) emptyTokenData emptyCache emptyStore
      "mystreet" false).1,
    (process_street_readonly (fun s => s) emptyTokenData emptyCache emptyStore
      "mystreet" false).2 rfl⟩

/- ===== C10: the names field of the emitted TokenInfo ===== -/

theorem compute_name_tokens_all_skipped (normalized : String → String)
    (analysis : AnalysisMap) :
    ∀ (names : List NameItem) (c : NameCache) (s : WordStore),
      (∀ n ∈ names,
        List.lookup (dispatchKey (normalized n.name) n.analyzer) c = none ∧
        ∃ strat, List.lookup n.analyzer analysis = some strat ∧
          strat (normalized n.name) = []) →
      _compute_name_tokens normalized analysis names c s = some (∅, ∅, c, s, 0) := by
  intro names
  induction names with
  | nil =>
    intro c s _
    rfl
  | cons n rest ih =>
    intro c s hall
    obtain ⟨hmiss, strat, hstrat, hvar⟩ := hall n (List.mem_cons_self n rest)
    have hrest := fun m hm => hall m (List.mem_cons_of_mem n hm)
    simp only [_compute_name_tokens, hmiss, hstrat, hvar, eq_self_iff_true, ite_true]
    exact ih c s hrest

theorem add_place_names (d : TokenData) (toks : List Nat) :
    (add_place d toks).names = d.names := by
  unfold add_place
  split <;> rfl

theorem add_address_terms_names (d : TokenData) (terms : List (String × List Nat)) :
    (add_address_terms d terms).names = d.names := by
  unfold add_address_terms
  dsimp only
  split <;> rfl

theorem addrLoop_names (searchNorm : String → String) :
    ∀ (address : List AddressItem) (d : TokenData) (c : TokenCache) (st : WordStore),
      (addrLoop searchNorm address d c st).2.2.2.1.names = d.names := by
  intro address
  induction address with
  | nil =>
    intro d c st
    rfl
  | cons item rest ih =>
    intro d c st
    simp only [addrLoop]
    split
    · exact ih _ _ _
    · split
      · exact ih _ _ _
      · split
        · exact ih _ _ _
        · split
          · split
            · exact ih _ _ _
            · rw [ih, add_place_names]
          · split
            · exact ih _ _ _
            · exact ih _ _ _

theorem process_place_address_names (searchNorm : String → String)
    (address : List AddressItem) (d : TokenData) (c : TokenCache) (st : WordStore) :
    (_process_place_address searchNorm d c st address).1.names = d.names := by
  have hd1 := addrLoop_names searchNorm address d c st
  rcases hA : addrLoop searchNorm address d c st with ⟨hnrs, at_, sts, d', c', st'⟩
  rw [hA] at hd1
  simp only at hd1
  unfold _process_place_address
  rw [hA]
  dsimp only
  by_cases h1 : hnrs = [] <;> by_cases h2 : at_ = [] <;> by_cases h3 : sts = [] <;>
    simp [h1, h2, h3, add_street, add_housenumbers, add_address_terms_names, hd1]

theorem add_names_empty_sets :
    (add_names emptyTokenData ∅ ∅).names = some "\x7b\x7d" := by
  unfold add_names
  simp only [Finset.sort_empty]
  rfl

/-- C10: with a non-empty sanitized name list in which every name is
skipped (cache miss and an empty variant set), the emitted record still
carries a `names` field holding the encoded empty array `"\x7b\x7d"`;
with no names at all, the `names` field is absent (`none`). -/
theorem process_place_names_field (normalized searchNorm : String → String)
    (analysis : AnalysisMap) (names : List NameItem) (address : List AddressItem)
    (is_country : Bool) (country_code : String) (cache : TokenCache) (st : WordStore) :
    (names ≠ [] →
      (∀ n ∈ names,
        List.lookup (dispatchKey (normalized n.name) n.analyzer) cache.names = none ∧
        ∃ strat, List.lookup n.analyzer analysis = some strat ∧
          strat (normalized n.name) = []) →
      ∃ r, process_place normalized searchNorm analysis names address is_country
          country_code cache st = some r ∧ r.1.names = some "\x7b\x7d") ∧
    (∃ r, process_place normalized searchNorm analysis [] address is_country
        country_code cache st = some r ∧ r.1.names = none) := by
  constructor
  · intro hne hall
    have hcomp := compute_name_tokens_all_skipped normalized analysis names cache.names st hall
    by_cases ha : address = []
    · subst ha
      have key : process_place normalized searchNorm analysis names [] is_country
          country_code cache st
          = some (add_names emptyTokenData ∅ ∅, { cache with names := cache.names },
              if is_country = true then
                (_add_country_full_names searchNorm country_code names st).1
              else st) := by
        simp only [process_place, if_neg hne, hcomp, eq_self_iff_true, ite_true]
      exact ⟨_, key, add_names_empty_sets⟩
    · have key : process_place normalized searchNorm analysis names address is_country
          country_code cache st
          = some (_process_place_address searchNorm (add_names emptyTokenData ∅ ∅)
              { cache with names := cache.names }
              (if is_country = true then
                (_add_country_full_names searchNorm country_code names st).1
              else st) address) := by
        simp only [process_place, if_neg hne, hcomp, if_neg ha]
      refine ⟨_, key, ?_⟩
      rw [process_place_address_names]
      exact add_names_empty_sets
  · by_cases ha : address = []
    · subst ha
      exact ⟨(emptyTokenData, cache, st), rfl, rfl⟩
    · have key : process_place normalized searchNorm analysis [] address is_country
          country_code cache st
          = some (_process_place_address searchNorm emptyTokenData cache st address) := by
        simp only [process_place, eq_self_iff_true, ite_true, if_neg ha]
      refine ⟨_, key, ?_⟩
      rw [process_place_address_names]
      rfl

/-- Witness for C10 at a concrete place: one name whose default analyzer
yields no variants (so it is skipped) against a fresh session; the
emitted record still has `names = "\x7b\x7d"`, and the companion part for
the empty name list holds at the same inputs. -/
theorem process_place_names_field_witness :
    (∃ r, process_place (fun s => s) (fun s => s) [(none, fun _ => [])]
        [⟨"a", none⟩] [] false "xx" emptyCache emptyStore = some r ∧
        r.1.names = some "\x7b\x7d") ∧
    (∃ r, process_place (fun s => s) (fun s => s) [(none, fun _ => [])]
        [] [] false "xx" emptyCache emptyStore = some r ∧ r.1.names = none) :=
  ⟨(process_place_names_field (fun s => s) (fun s => s) [(none, fun _ => [])]
      [⟨"a", none⟩] [] false "xx" emptyCache emptyStore).1
      (by simp)
      (by
        intro n hn
        simp only [List.mem_singleton] at hn
        subst hn
        exact ⟨rfl, fun _ => [], rfl, rfl⟩),
    (process_place_names_field (fun s => s) (fun s => s) [(none, fun _ => [])]
      [⟨"a", none⟩] [] false "xx" emptyCache emptyStore).2⟩

end Nominatim
